import Mathlib

/-!
Verification development for the pore-network topology builders and the
quasi-static (ordinary) percolation engine of this repository.  The
repository's visible files are example notebooks exercising the library;
the library internals they call (lattice builders, coordination reducer,
percolation engine, saturation extractor) are not present, so each such
operation is modelled here from the specification and the claims are
settled against those models.  Capillary pressures, volumes and
coordinates are modelled as rationals.
-/

namespace PNM

/-- Modelled from the spec: a pore (graph node) of the Entity Tables.  Only the
attribute the percolation engine and saturation extractor consume (the volume)
is carried; coordinates live in the builder output structure. -/
structure Pore where
  volume : ℚ
deriving DecidableEq, Repr

/-- Modelled from the spec: a throat (graph edge) of the Entity Tables: an
unordered pair of pore ids together with its externally supplied entry
(capillary) pressure and its volume. -/
structure Throat where
  conns : Nat × Nat
  entry : ℚ
  volume : ℚ
deriving DecidableEq, Repr

/-- Modelled from the spec: a network is a pore table plus a throat table.
The adjacency index is derived from the throat table on demand. -/
structure Network where
  pores : List Pore
  throats : List Throat
deriving DecidableEq, Repr

/-- Number of pores of a network. -/
def Network.np (nw : Network) : Nat := nw.pores.length

/-- The edge list of a network: the unordered endpoint pairs of its throats. -/
def Network.conns (nw : Network) : List (Nat × Nat) := nw.throats.map (fun t => t.conns)

/-- Modelled from the spec: the single ConfigurationError taxonomy shared by the
builders (invalid connectivity class, degenerate shape) and the percolation
engine (empty inlet set, empty outlet set, too-short sweep schedule). -/
inductive ConfigurationError where
  | badConnectivity
  | badShape
  | emptyInlets
  | emptyOutlets
  | shortSweep
deriving DecidableEq, Repr

/-! ## Lattice and template builders -/

/-- The six axis-aligned (face) neighbour offsets of a cubic lattice cell. -/
def faceOffsets : List (Int × Int × Int) :=
  [(1,0,0), (-1,0,0), (0,1,0), (0,-1,0), (0,0,1), (0,0,-1)]

/-- The eight corner neighbour offsets (differing in all three axes). -/
def cornerOffsets : List (Int × Int × Int) :=
  [(1,1,1), (1,1,-1), (1,-1,1), (1,-1,-1), (-1,1,1), (-1,1,-1), (-1,-1,1), (-1,-1,-1)]

/-- The twelve edge neighbour offsets (differing in exactly two axes). -/
def edgeOffsets : List (Int × Int × Int) :=
  [(1,1,0), (1,-1,0), (-1,1,0), (-1,-1,0),
   (1,0,1), (1,0,-1), (-1,0,1), (-1,0,-1),
   (0,1,1), (0,1,-1), (0,-1,1), (0,-1,-1)]

/-- Modelled from the spec: the neighbour-offset template selected by the
connectivity class: 6 = faces, 8 = corners, 12 = edges, 14 = 6+8, 18 = 6+12,
20 = 8+12, 26 = 6+8+12; any other value is invalid. -/
def offsetsFor : Nat → Option (List (Int × Int × Int))
  | 6 => some faceOffsets
  | 8 => some cornerOffsets
  | 12 => some edgeOffsets
  | 14 => some (faceOffsets ++ cornerOffsets)
  | 18 => some (faceOffsets ++ edgeOffsets)
  | 20 => some (cornerOffsets ++ edgeOffsets)
  | 26 => some (faceOffsets ++ cornerOffsets ++ edgeOffsets)
  | _ => none

/-- Row-major id of the lattice cell (i, j, k) in a shape (nx, ny, nz) grid. -/
def cellId (shape : Nat × Nat × Nat) (c : Nat × Nat × Nat) : Nat :=
  c.1 * (shape.2.1 * shape.2.2) + c.2.1 * shape.2.2 + c.2.2

/-- The cell with row-major id q in a shape (nx, ny, nz) grid. -/
def cellOf (shape : Nat × Nat × Nat) (q : Nat) : Nat × Nat × Nat :=
  (q / (shape.2.1 * shape.2.2), q % (shape.2.1 * shape.2.2) / shape.2.2, q % shape.2.2)

/-- All cells of the grid, in row-major scan order. -/
def cellsOf (shape : Nat × Nat × Nat) : List (Nat × Nat × Nat) :=
  (List.range (shape.1 * (shape.2.1 * shape.2.2))).map (cellOf shape)

/-- Whether an integer-coordinate neighbour lands inside the grid (no wraparound). -/
def inBounds (shape : Nat × Nat × Nat) (c : Int × Int × Int) : Bool :=
  0 ≤ c.1 && c.1 < (shape.1 : Int) && 0 ≤ c.2.1 && c.2.1 < (shape.2.1 : Int)
    && 0 ≤ c.2.2 && c.2.2 < (shape.2.2 : Int)

/-- The grid cell a cell c reaches under an offset d, before the bounds check. -/
def shiftCell (c : Nat × Nat × Nat) (d : Int × Int × Int) : Int × Int × Int :=
  ((c.1 : Int) + d.1, (c.2.1 : Int) + d.2.1, (c.2.2 : Int) + d.2.2)

/-- Truncation of an in-bounds integer cell back to grid coordinates. -/
def toCell (c : Int × Int × Int) : Nat × Nat × Nat :=
  (c.1.toNat, c.2.1.toNat, c.2.2.toNat)

/-- Modelled from the spec: the throat the Lattice Builder emits for cell c and
neighbour offset d: skipped when the neighbour is out of bounds, and emitted
exactly once per undirected pair by letting the lower-indexed pore initiate. -/
def latticePair (shape : Nat × Nat × Nat) (c : Nat × Nat × Nat) (d : Int × Int × Int) :
    Option (Nat × Nat) :=
  let n := shiftCell c d
  if inBounds shape n then
    let a := cellId shape c
    let b := cellId shape (toCell n)
    if a < b then some (a, b) else none
  else none

/-- Modelled from the spec: output of the Lattice and Template Builders: pore
count, pore coordinates, and the throat endpoint-pair list.  Pore attributes
such as volumes and entry pressures are supplied by external collaborators. -/
structure BuiltNetwork where
  np : Nat
  coords : List (ℚ × ℚ × ℚ)
  conns : List (Nat × Nat)
deriving DecidableEq, Repr

/-- Coordinate of a grid cell under the given spacing. -/
def coordOf (spacing : ℚ × ℚ × ℚ) (c : Nat × Nat × Nat) : ℚ × ℚ × ℚ :=
  ((c.1 : ℚ) * spacing.1, (c.2.1 : ℚ) * spacing.2.1, (c.2.2 : ℚ) * spacing.2.2)

/-- Modelled from the spec: the Lattice Builder.  Produces nx·ny·nz pores at
(i·sx, j·sy, k·sz) and throats from the neighbour template of the connectivity
class; out-of-bounds neighbours are skipped and each undirected pair is emitted
once.  Fails with a ConfigurationError on an invalid connectivity class or a
shape dimension below 1. -/
def buildLattice (shape : Nat × Nat × Nat) (spacing : ℚ × ℚ × ℚ) (connectivity : Nat) :
    Except ConfigurationError BuiltNetwork :=
  match offsetsFor connectivity with
  | none => .error .badConnectivity
  | some offs =>
    if shape.1 < 1 ∨ shape.2.1 < 1 ∨ shape.2.2 < 1 then .error .badShape
    else
      .ok { np := shape.1 * (shape.2.1 * shape.2.2)
          , coords := (cellsOf shape).map (coordOf spacing)
          , conns := (cellsOf shape).flatMap (fun c => offs.filterMap (latticePair shape c)) }

/-- Modelled from the spec: the pore id the Template Builder assigns to an
occupied cell: the number of occupied cells strictly before it in row-major
scan order. -/
def templateId (shape : Nat × Nat × Nat) (mask : Nat × Nat × Nat → Bool)
    (c : Nat × Nat × Nat) : Nat :=
  ((cellsOf shape).take (cellId shape c)).countP mask

/-- Modelled from the spec: the throat the Template Builder emits for an
occupied cell c and neighbour offset d: skipped when the neighbour is out of
bounds or unoccupied; ids are row-major-scan ids over occupied cells, and each
undirected pair is emitted once by the lower-indexed pore. -/
def templatePair (shape : Nat × Nat × Nat) (mask : Nat × Nat × Nat → Bool)
    (c : Nat × Nat × Nat) (d : Int × Int × Int) : Option (Nat × Nat) :=
  let n := shiftCell c d
  if inBounds shape n && mask (toCell n) then
    let a := templateId shape mask c
    let b := templateId shape mask (toCell n)
    if a < b then some (a, b) else none
  else none

/-- Modelled from the spec: the Template Builder.  Produces a pore for every
occupied (true) cell of the boolean mask, with ids in row-major scan order, and
throats by the lattice neighbour template restricted to pairs of occupied
cells.  The connectivity-class validation is shared with the Lattice Builder. -/
def buildFromTemplate (shape : Nat × Nat × Nat) (mask : Nat × Nat × Nat → Bool)
    (spacing : ℚ × ℚ × ℚ) (connectivity : Nat) : Except ConfigurationError BuiltNetwork :=
  match offsetsFor connectivity with
  | none => .error .badConnectivity
  | some offs =>
    if shape.1 < 1 ∨ shape.2.1 < 1 ∨ shape.2.2 < 1 then .error .badShape
    else
      .ok { np := ((cellsOf shape).filter mask).length
          , coords := ((cellsOf shape).filter mask).map (coordOf spacing)
          , conns := (cellsOf shape).flatMap (fun c =>
              if mask c then offs.filterMap (templatePair shape mask c) else []) }

/-- Number of throats the 26-connectivity Lattice Builder emits from the cell
with row-major id q of the (10, 10, 10) grid. -/
def cellThroatCount (q : Nat) : Nat :=
  ((faceOffsets ++ cornerOffsets ++ edgeOffsets).filterMap
    (latticePair (10, 10, 10) (cellOf (10, 10, 10) q))).length

/-! ## Cluster tracking as reachability

The spec allows the Cluster Tracker to be realized statelessly: for each sweep
pressure the invaded set is exactly the set of entities reachable from the
inlet set through admitted entities (spec, concurrency model).  We model that
closure by a fuel-bounded expansion over an undirected edge list; a fuel equal
to the pore count covers every simple path. -/

/-- One expansion step of the reachable set: keep the current front and add
both endpoints of every edge already touching it (edges are undirected). -/
def expandStep (E : List (Nat × Nat)) (s : List Nat) : List Nat :=
  s ++ (E.filter (fun e => decide (e.1 ∈ s))).map (fun e => e.2)
    ++ (E.filter (fun e => decide (e.2 ∈ s))).map (fun e => e.1)

/-- Fuel-bounded reachable set from a seed set through an undirected edge list. -/
def reachList (E : List (Nat × Nat)) : Nat → List Nat → List Nat
  | 0, s => s
  | n + 1, s => expandStep E (reachList E n s)

/-- Decidable connectivity between two pores through an edge list, with fuel
equal to the given pore count. -/
def connectedB (np : Nat) (E : List (Nat × Nat)) (a b : Nat) : Bool :=
  decide (b ∈ reachList E np [a])

/-! ## Percolation engine -/

/-- Modelled from the spec: the throats admitted at sweep pressure p under bond
percolation (the mode the repository's notebooks exercise): those whose entry
pressure does not exceed p. -/
def admittedThroats (nw : Network) (p : ℚ) : List Throat :=
  nw.throats.filter (fun t => decide (t.entry ≤ p))

/-- Endpoint pairs of the admitted throats. -/
def admittedConns (nw : Network) (p : ℚ) : List (Nat × Nat) :=
  (admittedThroats nw p).map (fun t => t.conns)

/-- Modelled from the spec: the pores invaded once the sweep has reached
pressure p: members of clusters of admitted throats that touch the inlet set
(inlet pores themselves are invaded from the start). -/
def invadedPores (nw : Network) (inlets : List Nat) (p : ℚ) : List Nat :=
  reachList (admittedConns nw p) nw.np inlets

/-- Modelled from the spec: whether a throat is invaded at sweep pressure p: it
is admitted and belongs to an inlet-touching cluster (both endpoints invaded). -/
def throatInvaded (nw : Network) (inlets : List Nat) (p : ℚ) (t : Throat) : Bool :=
  decide (t.entry ≤ p) && decide (t.conns.1 ∈ invadedPores nw inlets p)
    && decide (t.conns.2 ∈ invadedPores nw inlets p)

/-- Pores reachable from the inlet set in the underlying graph, irrespective of
pressure: only their volume is accessible to invasion. -/
def accessiblePores (nw : Network) (inlets : List Nat) : List Nat :=
  reachList nw.conns nw.np inlets

/-- Whether a throat is reachable from the inlet set in the underlying graph. -/
def throatAccessible (nw : Network) (inlets : List Nat) (t : Throat) : Bool :=
  decide (t.conns.1 ∈ accessiblePores nw inlets)
    && decide (t.conns.2 ∈ accessiblePores nw inlets)

/-- Modelled from the spec: total invaded volume at sweep pressure p: the
volumes of invaded pores plus the volumes of invaded throats. -/
def invadedVolume (nw : Network) (inlets : List Nat) (p : ℚ) : ℚ :=
  ((nw.pores.enum.filter (fun q => decide (q.1 ∈ invadedPores nw inlets p))).map
      (fun q => q.2.volume)).sum
    + ((nw.throats.filter (throatInvaded nw inlets p)).map (fun t => t.volume)).sum

/-- Modelled from the spec: total accessible volume: the volumes of all pores
and throats reachable from the inlet set in the underlying graph. -/
def accessibleVolume (nw : Network) (inlets : List Nat) : ℚ :=
  ((nw.pores.enum.filter (fun q => decide (q.1 ∈ accessiblePores nw inlets))).map
      (fun q => q.2.volume)).sum
    + ((nw.throats.filter (throatAccessible nw inlets)).map (fun t => t.volume)).sum

/-- Modelled from the spec: the Saturation Extractor: invaded volume divided by
total accessible volume. -/
def saturation (nw : Network) (inlets : List Nat) (p : ℚ) : ℚ :=
  invadedVolume nw inlets p / accessibleVolume nw inlets

/-- Modelled from the spec: the run percolates at pressure p when some invaded
cluster touches both the inlet and the outlet set. -/
def percolatesAt (nw : Network) (inlets outlets : List Nat) (p : ℚ) : Bool :=
  outlets.any (fun o => decide (o ∈ invadedPores nw inlets p))

/-- Modelled from the spec: the mutable per-run state: per-pore and per-throat
invasion thresholds, initialized to none (standing for +infinity, never
invaded). -/
structure RunState where
  poreThr : Nat → Option ℚ
  throatThr : Nat → Option ℚ

/-- The initial run state: no entity has an invasion threshold yet. -/
def initState : RunState where
  poreThr := fun _ => none
  throatThr := fun _ => none

/-- Whether the throat with index j is invaded at pressure p. -/
def throatInvadedIdx (nw : Network) (inlets : List Nat) (p : ℚ) (j : Nat) : Bool :=
  match nw.throats[j]? with
  | some t => throatInvaded nw inlets p t
  | none => false

/-- Modelled from the spec: one sweep step at pressure p: every newly invaded
entity still at its initial threshold gets its invasion threshold set to p;
already-set thresholds are left untouched. -/
def stepState (nw : Network) (inlets : List Nat) (st : RunState) (p : ℚ) : RunState where
  poreThr := fun i =>
    match st.poreThr i with
    | some v => some v
    | none => if i ∈ invadedPores nw inlets p then some p else none
  throatThr := fun j =>
    match st.throatThr j with
    | some v => some v
    | none => if throatInvadedIdx nw inlets p j then some p else none

/-- Modelled from the spec: the sweep schedule actually run: the supplied
pressure sequence deduplicated and sorted ascending, regardless of input
order. -/
def sweepSchedule (sweep : List ℚ) : List ℚ :=
  List.insertionSort (fun a b => a ≤ b) sweep.dedup

/-- The engine state after the first k sweep steps of the schedule. -/
def stateAt (nw : Network) (inlets : List Nat) (sweep : List ℚ) (k : Nat) : RunState :=
  ((sweepSchedule sweep).take k).foldl (stepState nw inlets) initState

/-- The engine state after the full sweep. -/
def finalState (nw : Network) (inlets : List Nat) (sweep : List ℚ) : RunState :=
  (sweepSchedule sweep).foldl (stepState nw inlets) initState

/-- Modelled from the spec: the frozen results of a completed percolation run:
per-entity invasion thresholds, the percolation answer for every tested
pressure, the percolation threshold (none when no tested pressure percolates),
and the intrusion curve of (pressure, saturation) pairs. -/
structure RunResult where
  poreThr : List (Option ℚ)
  throatThr : List (Option ℚ)
  percAt : List (ℚ × Bool)
  threshold : Option ℚ
  curve : List (ℚ × ℚ)
deriving DecidableEq, Repr

/-- Modelled from the spec: the Percolation Engine run: configuration errors
(empty inlet set, empty outlet set, a sweep of fewer than two points) are
raised before any sweep step executes, so no result state is ever observable
from a failed run; otherwise the full ascending sweep is folded and the frozen
results are published. -/
def runEngine (nw : Network) (inlets outlets : List Nat) (sweep : List ℚ) :
    Except ConfigurationError RunResult :=
  if inlets = [] then .error .emptyInlets
  else if outlets = [] then .error .emptyOutlets
  else if sweep.length < 2 then .error .shortSweep
  else
    .ok { poreThr := (List.range nw.np).map (finalState nw inlets sweep).poreThr
        , throatThr := (List.range nw.throats.length).map (finalState nw inlets sweep).throatThr
        , percAt := (sweepSchedule sweep).map (fun p => (p, percolatesAt nw inlets outlets p))
        , threshold := (sweepSchedule sweep).find? (percolatesAt nw inlets outlets)
        , curve := (sweepSchedule sweep).map (fun p => (p, saturation nw inlets p)) }

/-! ## Coordination reducer -/

/-- Path connectivity of two pores through an undirected edge list: the
reflexive closure of stepping along edges in either direction. -/
inductive Conn (E : List (Nat × Nat)) : Nat → Nat → Prop where
  | refl (a : Nat) : Conn E a a
  | fwd {a b c : Nat} : Conn E a b → (b, c) ∈ E → Conn E a c
  | bwd {a b c : Nat} : Conn E a b → (c, b) ∈ E → Conn E a c

/-- Endpoint pairs of an indexed throat list. -/
def connsOf (K : List (Nat × Throat)) : List (Nat × Nat) :=
  K.map (fun q => q.2.conns)

/-- Modelled from the spec: one step of the spanning-forest scan (Kruskal-style
with uniform weights): an indexed throat is kept exactly when its endpoints are
not yet connected by the throats kept so far. -/
def keepStep (np : Nat) (K : List (Nat × Throat)) (it : Nat × Throat) : List (Nat × Throat) :=
  if connectedB np (connsOf K) it.2.conns.1 it.2.conns.2 then K else K ++ [it]

/-- Modelled from the spec: the spanning forest of a network, as the indexed
sublist of throats kept by the scan: one spanning tree per connected
component. -/
def spanningForest (nw : Network) : List (Nat × Throat) :=
  nw.throats.enum.foldl (keepStep nw.np) []

/-- Modelled from the spec: the protected throat indices: those of the
spanning-forest throats, which the reducer never removes. -/
def protectedIdx (nw : Network) : List Nat :=
  (spanningForest nw).map (fun q => q.1)

/-- Modelled from the spec: the removal candidates: indices of the
non-protected throats. -/
def candidateIdx (nw : Network) : List Nat :=
  (List.range nw.throats.length).filter (fun i => decide (i ∉ protectedIdx nw))

/-- Modelled from the spec: how many throats must be removed so that the mean
degree 2·throats/pores drops to the target z (0 when the target is already
met). -/
def removalCount (nw : Network) (z : ℚ) : Nat :=
  nw.throats.length - (z * (nw.np : ℚ) / 2).floor.toNat

/-- Modelled from the spec: the throat indices actually removed: drawn by a
caller-supplied seeded shuffle, constrained by construction to the
non-protected candidates and truncated to the removal count (so fewer are
removed when not enough candidates exist). -/
def removalIdx (nw : Network) (z : ℚ) (shuffle : List Nat → List Nat) : List Nat :=
  (((shuffle (candidateIdx nw)).filter
      (fun i => decide (i ∈ candidateIdx nw))).dedup).take (removalCount nw z)

/-- Modelled from the spec: the Coordination Reducer, target-coordination trim:
removes the selected non-protected throats and returns the trimmed network
together with the achieved mean degree 2·throats/pores. -/
def reduceCoordination (nw : Network) (z : ℚ) (shuffle : List Nat → List Nat) :
    Network × ℚ :=
  let newThroats := (nw.throats.enum.filter
    (fun q => decide (q.1 ∉ removalIdx nw z shuffle))).map (fun q => q.2)
  ({ pores := nw.pores, throats := newThroats },
    2 * (newThroats.length : ℚ) / (nw.np : ℚ))

/-! ## Concrete demonstration networks -/

/-- The 2-pore, 1-throat network of the spec's test scenario: throat entry
pressure 5, boundary pores of zero volume, all volume in the throat. -/
def demoNet : Network where
  pores := [{ volume := 0 }, { volume := 0 }]
  throats := [{ conns := (0, 1), entry := 5, volume := 1 }]

/-- The same 2-pore network but with strictly positive pore volumes, so the
inlet pore contributes invaded volume from the very first sweep step. -/
def demoNetVol : Network where
  pores := [{ volume := 2 }, { volume := 3 }]
  throats := [{ conns := (0, 1), entry := 5, volume := 1 }]

/-- The frozen result of running the engine on demoNet with inlet pore 0,
outlet pore 1 and sweep pressures 1, 3, 5, 7. -/
def demoResult : RunResult where
  poreThr := [some 1, some 5]
  throatThr := [some 5]
  percAt := [(1, false), (3, false), (5, true), (7, true)]
  threshold := some 5
  curve := [(1, 0), (3, 0), (5, 1), (7, 1)]

/-- The volume of the pore with a given id, 0 when the id is out of range. -/
def poreVol (nw : Network) (i : Nat) : ℚ :=
  (nw.pores[i]?.map Pore.volume).getD 0

/-- The frozen result of running the engine on demoNetVol: the inlet pore of
volume 2 is invaded from the first step, so the intrusion curve starts at a
strictly positive saturation. -/
def demoResultVol : RunResult where
  poreThr := [some 1, some 5]
  throatThr := [some 5]
  percAt := [(1, false), (3, false), (5, true), (7, true)]
  threshold := some 5
  curve := [(1, 1/3), (3, 1/3), (5, 1), (7, 1)]

instance {ε α : Type} [DecidableEq ε] [DecidableEq α] : DecidableEq (Except ε α) :=
  fun x y =>
    match x, y with
    | .ok a, .ok b => decidable_of_iff (a = b) (by simp)
    | .error a, .error b => decidable_of_iff (a = b) (by simp)
    | .ok _, .error _ => isFalse (by simp)
    | .error _, .ok _ => isFalse (by simp)

/-! ## Engine lemmas -/

theorem mem_expandStep_self {E : List (Nat × Nat)} {s : List Nat} {x : Nat}
    (hx : x ∈ s) : x ∈ expandStep E s := by
  unfold expandStep
  exact List.mem_append_left _ (List.mem_append_left _ hx)

theorem mem_reachList_self {E : List (Nat × Nat)} {s : List Nat} {x : Nat}
    (hx : x ∈ s) : ∀ n, x ∈ reachList E n s := by
  intro n
  induction n with
  | zero => exact hx
  | succ n ih => exact mem_expandStep_self ih

theorem mem_expandStep_mono {E F : List (Nat × Nat)} {s t : List Nat}
    (hEF : ∀ e ∈ E, e ∈ F) (hst : ∀ x ∈ s, x ∈ t) :
    ∀ x ∈ expandStep E s, x ∈ expandStep F t := by
  intro x hx
  unfold expandStep at hx ⊢
  rcases List.mem_append.1 hx with hx' | hx'
  · rcases List.mem_append.1 hx' with h | h
    · exact List.mem_append_left _ (List.mem_append_left _ (hst x h))
    · rcases List.mem_map.1 h with ⟨e, he, rfl⟩
      rcases List.mem_filter.1 he with ⟨heE, hes⟩
      refine List.mem_append_left _ (List.mem_append_right _ (List.mem_map.2 ⟨e, ?_, rfl⟩))
      exact List.mem_filter.2 ⟨hEF e heE, by simpa using hst e.1 (by simpa using hes)⟩
  · rcases List.mem_map.1 hx' with ⟨e, he, rfl⟩
    rcases List.mem_filter.1 he with ⟨heE, hes⟩
    refine List.mem_append_right _ (List.mem_map.2 ⟨e, ?_, rfl⟩)
    exact List.mem_filter.2 ⟨hEF e heE, by simpa using hst e.2 (by simpa using hes)⟩

theorem mem_reachList_mono {E F : List (Nat × Nat)} {s t : List Nat}
    (hEF : ∀ e ∈ E, e ∈ F) (hst : ∀ x ∈ s, x ∈ t) :
    ∀ n, ∀ x ∈ reachList E n s, x ∈ reachList F n t := by
  intro n
  induction n with
  | zero => exact hst
  | succ n ih => exact mem_expandStep_mono hEF ih

theorem Conn.trans {E : List (Nat × Nat)} {a b c : Nat}
    (h1 : Conn E a b) (h2 : Conn E b c) : Conn E a c := by
  induction h2 with
  | refl => exact h1
  | fwd _ hm ih => exact Conn.fwd ih hm
  | bwd _ hm ih => exact Conn.bwd ih hm

theorem Conn.symm {E : List (Nat × Nat)} {a b : Nat}
    (h : Conn E a b) : Conn E b a := by
  induction h with
  | refl => exact Conn.refl _
  | fwd _ hm ih => exact Conn.trans (Conn.bwd (Conn.refl _) hm) ih
  | bwd _ hm ih => exact Conn.trans (Conn.fwd (Conn.refl _) hm) ih

theorem Conn.mono {E F : List (Nat × Nat)} {a b : Nat}
    (hEF : ∀ e ∈ E, e ∈ F) (h : Conn E a b) : Conn F a b := by
  induction h with
  | refl => exact Conn.refl _
  | fwd _ hm ih => exact Conn.fwd ih (hEF _ hm)
  | bwd _ hm ih => exact Conn.bwd ih (hEF _ hm)

theorem reachList_sound {E : List (Nat × Nat)} :
    ∀ (n : Nat) (s : List Nat) (b : Nat), b ∈ reachList E n s → ∃ a ∈ s, Conn E a b := by
  intro n
  induction n with
  | zero => exact fun s b hb => ⟨b, hb, Conn.refl b⟩
  | succ n ih =>
    intro s b hb
    unfold reachList expandStep at hb
    rcases List.mem_append.1 hb with hb' | hb'
    · rcases List.mem_append.1 hb' with h | h
      · exact ih s b h
      · rcases List.mem_map.1 h with ⟨e, he, rfl⟩
        rcases List.mem_filter.1 he with ⟨heE, hes⟩
        rcases ih s e.1 (by simpa using hes) with ⟨a, ha, hconn⟩
        exact ⟨a, ha, Conn.fwd hconn (by simpa using heE)⟩
    · rcases List.mem_map.1 hb' with ⟨e, he, rfl⟩
      rcases List.mem_filter.1 he with ⟨heE, hes⟩
      rcases ih s e.2 (by simpa using hes) with ⟨a, ha, hconn⟩
      exact ⟨a, ha, Conn.bwd hconn (by simpa using heE)⟩

theorem connectedB_sound {np : Nat} {E : List (Nat × Nat)} {a b : Nat}
    (h : connectedB np E a b = true) : Conn E a b := by
  rcases reachList_sound np [a] b (by simpa [connectedB] using h) with ⟨x, hx, hconn⟩
  rcases List.mem_singleton.1 hx with rfl
  exact hconn


theorem runEngine_ok {nw : Network} {inlets outlets : List Nat} {sweep : List ℚ}
    {res : RunResult} (h : runEngine nw inlets outlets sweep = .ok res) :
    res.poreThr = (List.range nw.np).map (finalState nw inlets sweep).poreThr
      ∧ res.percAt = (sweepSchedule sweep).map (fun p => (p, percolatesAt nw inlets outlets p))
      ∧ res.threshold = (sweepSchedule sweep).find? (percolatesAt nw inlets outlets)
      ∧ res.curve = (sweepSchedule sweep).map (fun p => (p, saturation nw inlets p))
      ∧ inlets ≠ [] ∧ outlets ≠ [] := by
  unfold runEngine at h
  split at h
  · cases h
  · split at h
    · cases h
    · split at h
      · cases h
      · rename_i h1 h2 h3
        cases h
        exact ⟨rfl, rfl, rfl, rfl, h1, h2⟩

theorem sweepSchedule_sorted (sweep : List ℚ) :
    (sweepSchedule sweep).Sorted (fun a b => a ≤ b) :=
  List.sorted_insertionSort _ _

theorem sweepSchedule_nodup (sweep : List ℚ) : (sweepSchedule sweep).Nodup :=
  (List.perm_insertionSort _ _).symm.nodup (List.nodup_dedup _)

theorem mem_sweepSchedule {sweep : List ℚ} {p : ℚ} :
    p ∈ sweepSchedule sweep ↔ p ∈ sweep := by
  simp [sweepSchedule, List.mem_insertionSort, List.mem_dedup]

theorem admittedConns_mono {nw : Network} {p q : ℚ} (hpq : p ≤ q) :
    ∀ e ∈ admittedConns nw p, e ∈ admittedConns nw q := by
  intro e he
  rcases List.mem_map.1 he with ⟨t, ht, rfl⟩
  rcases List.mem_filter.1 ht with ⟨htw, hle⟩
  simp only [decide_eq_true_eq] at hle
  exact List.mem_map.2 ⟨t, List.mem_filter.2 ⟨htw, by
    simp only [decide_eq_true_eq]; exact le_trans hle hpq⟩, rfl⟩

theorem admittedConns_subset_conns {nw : Network} {p : ℚ} :
    ∀ e ∈ admittedConns nw p, e ∈ nw.conns := by
  intro e he
  rcases List.mem_map.1 he with ⟨t, ht, rfl⟩
  exact List.mem_map.2 ⟨t, (List.mem_filter.1 ht).1, rfl⟩

theorem invadedPores_mono {nw : Network} {inlets : List Nat} {p q : ℚ} (hpq : p ≤ q) :
    ∀ x ∈ invadedPores nw inlets p, x ∈ invadedPores nw inlets q :=
  mem_reachList_mono (admittedConns_mono hpq) (fun _ hx => hx) _

theorem invadedPores_subset_accessible {nw : Network} {inlets : List Nat} {p : ℚ} :
    ∀ x ∈ invadedPores nw inlets p, x ∈ accessiblePores nw inlets :=
  mem_reachList_mono admittedConns_subset_conns (fun _ hx => hx) _

theorem inlets_subset_invadedPores {nw : Network} {inlets : List Nat} {p : ℚ} :
    ∀ x ∈ inlets, x ∈ invadedPores nw inlets p :=
  fun _ hx => mem_reachList_self hx _

theorem throatInvaded_mono {nw : Network} {inlets : List Nat} {p q : ℚ} (hpq : p ≤ q)
    {t : Throat} (h : throatInvaded nw inlets p t = true) :
    throatInvaded nw inlets q t = true := by
  simp only [throatInvaded, Bool.and_eq_true, decide_eq_true_eq] at h ⊢
  exact ⟨⟨le_trans h.1.1 hpq, invadedPores_mono hpq _ h.1.2⟩, invadedPores_mono hpq _ h.2⟩

theorem throatInvaded_accessible {nw : Network} {inlets : List Nat} {p : ℚ}
    {t : Throat} (h : throatInvaded nw inlets p t = true) :
    throatAccessible nw inlets t = true := by
  simp only [throatInvaded, throatAccessible, Bool.and_eq_true, decide_eq_true_eq] at h ⊢
  exact ⟨invadedPores_subset_accessible _ h.1.2, invadedPores_subset_accessible _ h.2⟩

theorem percolatesAt_mono {nw : Network} {inlets outlets : List Nat} {p q : ℚ}
    (hpq : p ≤ q) (h : percolatesAt nw inlets outlets p = true) :
    percolatesAt nw inlets outlets q = true := by
  rcases List.any_eq_true.1 h with ⟨o, ho, hmem⟩
  simp only [decide_eq_true_eq] at hmem
  exact List.any_eq_true.2 ⟨o, ho, by
    simp only [decide_eq_true_eq]; exact invadedPores_mono hpq _ hmem⟩

/-- In a list sorted ascending, every element strictly below the first hit of
find? fails the predicate. -/
theorem find?_sorted_below {f : ℚ → Bool} :
    ∀ {l : List ℚ}, l.Sorted (fun a b => a ≤ b) → ∀ {t : ℚ}, l.find? f = some t →
      ∀ p ∈ l, p < t → f p = false := by
  intro l
  induction l with
  | nil => intro _ t ht; cases ht
  | cons a l ih =>
    intro hl t ht p hp hlt
    cases hfa : f a with
    | false =>
      rw [List.find?_cons_of_neg _ (by simp [hfa])] at ht
      rcases List.mem_cons.1 hp with rfl | hpl
      · exact hfa
      · exact ih hl.of_cons ht p hpl hlt
    | true =>
      rw [List.find?_cons_of_pos _ (by simp [hfa])] at ht
      cases Option.some.inj ht
      rcases List.mem_cons.1 hp with rfl | hpl
      · exact absurd hlt (lt_irrefl p)
      · exact absurd hlt (not_lt.2 (List.rel_of_sorted_cons hl p hpl))

/-! ## Sum lemmas for the saturation extractor -/

theorem sum_filter_nonneg {α : Type} (l : List α) (f : α → ℚ) (P : α → Bool)
    (hf : ∀ x ∈ l, 0 ≤ f x) : 0 ≤ ((l.filter P).map f).sum := by
  induction l with
  | nil => simp
  | cons a l ih =>
    have ha := hf a (List.mem_cons_self a l)
    have ih' := ih (fun x hx => hf x (List.mem_cons_of_mem a hx))
    cases hP : P a with
    | false => simpa [List.filter_cons, hP] using ih'
    | true =>
      simp only [List.filter_cons, hP, if_pos, List.map_cons, List.sum_cons]
      exact add_nonneg ha ih'

theorem sum_filter_mono {α : Type} (l : List α) (f : α → ℚ) (P Q : α → Bool)
    (hf : ∀ x ∈ l, 0 ≤ f x) (hPQ : ∀ x ∈ l, P x = true → Q x = true) :
    ((l.filter P).map f).sum ≤ ((l.filter Q).map f).sum := by
  induction l with
  | nil => simp
  | cons a l ih =>
    have ha := hf a (List.mem_cons_self a l)
    have ih' := ih (fun x hx => hf x (List.mem_cons_of_mem a hx))
      (fun x hx => hPQ x (List.mem_cons_of_mem a hx))
    cases hP : P a with
    | true =>
      have hQ : Q a = true := hPQ a (List.mem_cons_self a l) hP
      simpa [List.filter_cons, hP, hQ] using add_le_add_left ih' (f a)
    | false =>
      cases hQ : Q a with
      | false => simpa [List.filter_cons, hP, hQ] using ih'
      | true =>
        simp only [List.filter_cons, hP, hQ, if_pos, if_neg, Bool.false_eq_true,
          not_false_iff, List.map_cons, List.sum_cons]
        calc ((l.filter P).map f).sum ≤ ((l.filter Q).map f).sum := ih'
          _ ≤ f a + ((l.filter Q).map f).sum := le_add_of_nonneg_left ha

theorem sum_filter_pos {α : Type} (l : List α) (f : α → ℚ) (P : α → Bool)
    (hf : ∀ x ∈ l, 0 ≤ f x) {x : α} (hx : x ∈ l) (hPx : P x = true) (hfx : 0 < f x) :
    0 < ((l.filter P).map f).sum := by
  induction l with
  | nil => cases hx
  | cons a l ih =>
    have hf' : ∀ y ∈ l, 0 ≤ f y := fun y hy => hf y (List.mem_cons_of_mem a hy)
    rcases List.mem_cons.1 hx with rfl | hxl
    · simp only [List.filter_cons, hPx, if_pos, List.map_cons, List.sum_cons]
      exact add_pos_of_pos_of_nonneg hfx (sum_filter_nonneg l f P hf')
    · cases hP : P a with
      | false => simpa [List.filter_cons, hP] using ih hf' hxl
      | true =>
        simp only [List.filter_cons, hP, if_pos, List.map_cons, List.sum_cons]
        exact add_pos_of_nonneg_of_pos (hf a (List.mem_cons_self a l)) (ih hf' hxl)

/-! ## Saturation lemmas -/

theorem invadedVolume_nonneg {nw : Network} {inlets : List Nat} {p : ℚ}
    (hvp : ∀ pr ∈ nw.pores, 0 ≤ pr.volume) (hvt : ∀ t ∈ nw.throats, 0 ≤ t.volume) :
    0 ≤ invadedVolume nw inlets p := by
  refine add_nonneg (sum_filter_nonneg _ _ _ ?_) (sum_filter_nonneg _ _ _ hvt)
  intro q hq
  rcases List.mk_mem_enum_iff_getElem?.1 (by exact hq) with hget
  exact hvp q.2 (List.getElem?_mem hget)

theorem invadedVolume_le_accessible {nw : Network} {inlets : List Nat} {p : ℚ}
    (hvp : ∀ pr ∈ nw.pores, 0 ≤ pr.volume) (hvt : ∀ t ∈ nw.throats, 0 ≤ t.volume) :
    invadedVolume nw inlets p ≤ accessibleVolume nw inlets := by
  refine add_le_add (sum_filter_mono _ _ _ _ ?_ ?_) (sum_filter_mono _ _ _ _ hvt ?_)
  · intro q hq
    exact hvp q.2 (List.getElem?_mem (List.mk_mem_enum_iff_getElem?.1 (by exact hq)))
  · intro q _ hq
    simp only [decide_eq_true_eq] at hq ⊢
    exact invadedPores_subset_accessible _ hq
  · intro t _ ht
    exact throatInvaded_accessible ht

theorem invadedVolume_mono {nw : Network} {inlets : List Nat} {p q : ℚ} (hpq : p ≤ q)
    (hvp : ∀ pr ∈ nw.pores, 0 ≤ pr.volume) (hvt : ∀ t ∈ nw.throats, 0 ≤ t.volume) :
    invadedVolume nw inlets p ≤ invadedVolume nw inlets q := by
  refine add_le_add (sum_filter_mono _ _ _ _ ?_ ?_) (sum_filter_mono _ _ _ _ hvt ?_)
  · intro r hr
    exact hvp r.2 (List.getElem?_mem (List.mk_mem_enum_iff_getElem?.1 (by exact hr)))
  · intro r _ hr
    simp only [decide_eq_true_eq] at hr ⊢
    exact invadedPores_mono hpq _ hr
  · intro t _ ht
    exact throatInvaded_mono hpq ht

theorem accessibleVolume_nonneg {nw : Network} {inlets : List Nat}
    (hvp : ∀ pr ∈ nw.pores, 0 ≤ pr.volume) (hvt : ∀ t ∈ nw.throats, 0 ≤ t.volume) :
    0 ≤ accessibleVolume nw inlets := by
  refine add_nonneg (sum_filter_nonneg _ _ _ ?_) (sum_filter_nonneg _ _ _ hvt)
  intro q hq
  exact hvp q.2 (List.getElem?_mem (List.mk_mem_enum_iff_getElem?.1 (by exact hq)))

theorem saturation_nonneg {nw : Network} {inlets : List Nat} {p : ℚ}
    (hvp : ∀ pr ∈ nw.pores, 0 ≤ pr.volume) (hvt : ∀ t ∈ nw.throats, 0 ≤ t.volume) :
    0 ≤ saturation nw inlets p :=
  div_nonneg (invadedVolume_nonneg hvp hvt) (accessibleVolume_nonneg hvp hvt)

theorem saturation_le_one {nw : Network} {inlets : List Nat} {p : ℚ}
    (hvp : ∀ pr ∈ nw.pores, 0 ≤ pr.volume) (hvt : ∀ t ∈ nw.throats, 0 ≤ t.volume) :
    saturation nw inlets p ≤ 1 := by
  unfold saturation
  rcases eq_or_lt_of_le (@accessibleVolume_nonneg nw inlets hvp hvt) with hz | hpos
  · rw [← hz, div_zero]
    exact zero_le_one
  · exact (div_le_one hpos).2 (invadedVolume_le_accessible hvp hvt)

theorem saturation_mono {nw : Network} {inlets : List Nat} {p q : ℚ} (hpq : p ≤ q)
    (hvp : ∀ pr ∈ nw.pores, 0 ≤ pr.volume) (hvt : ∀ t ∈ nw.throats, 0 ≤ t.volume) :
    saturation nw inlets p ≤ saturation nw inlets q := by
  unfold saturation
  exact div_le_div_of_nonneg_right (invadedVolume_mono hpq hvp hvt)
    (accessibleVolume_nonneg hvp hvt)

/-! ## Claim theorems -/

unseal Rat.add Rat.mul Rat.inv Rat.sub in
/-- Claim C3: on the concrete network of two pores joined by one throat with
entry pressure 5, inlets = pore 0, outlets = pore 1 and sweep pressures
1, 3, 5, 7, the engine reports not percolating at 1 and 3, percolating at 5
and 7, a percolation threshold of 5, and an intrusion curve whose saturation
is 0 below pressure 5 and 1 at pressure 5 and above. -/
theorem percolation_two_pore_scenario :
    runEngine demoNet [0] [1] [1, 3, 5, 7] = .ok demoResult
      ∧ demoResult.percAt = [(1, false), (3, false), (5, true), (7, true)]
      ∧ demoResult.threshold = some 5
      ∧ demoResult.curve = [(1, 0), (3, 0), (5, 1), (7, 1)] := by
  refine ⟨by decide, rfl, rfl, rfl⟩

/-- Claim C8: an empty inlet pore set or an empty outlet pore set is a
configuration error: the engine returns the ConfigurationError before any
sweep step executes, and no run result is observable from the failed call. -/
theorem empty_boundary_is_config_error (nw : Network) (inlets outlets : List Nat)
    (sweep : List ℚ) (h : inlets = [] ∨ outlets = []) :
    runEngine nw inlets outlets sweep = .error .emptyInlets
      ∨ runEngine nw inlets outlets sweep = .error .emptyOutlets := by
  unfold runEngine
  rcases h with rfl | rfl
  · exact Or.inl (by simp)
  · by_cases hin : inlets = []
    · exact Or.inl (by simp [hin])
    · exact Or.inr (by simp [hin])

theorem empty_boundary_is_config_error_witness :
    ([] = ([] : List Nat) ∨ ([1] : List Nat) = [])
      ∧ (runEngine demoNet [] [1] [1, 3, 5, 7] = .error .emptyInlets
          ∨ runEngine demoNet [] [1] [1, 3, 5, 7] = .error .emptyOutlets) :=
  ⟨Or.inl rfl, empty_boundary_is_config_error demoNet [] [1] [1, 3, 5, 7] (Or.inl rfl)⟩

theorem stepState_preserves_pore {nw : Network} {inlets : List Nat} {st : RunState}
    {p : ℚ} {e : Nat} {v : ℚ} (h : st.poreThr e = some v) :
    (stepState nw inlets st p).poreThr e = some v := by
  simp [stepState, h]

theorem stepState_preserves_throat {nw : Network} {inlets : List Nat} {st : RunState}
    {p : ℚ} {e : Nat} {v : ℚ} (h : st.throatThr e = some v) :
    (stepState nw inlets st p).throatThr e = some v := by
  simp [stepState, h]

theorem foldl_stepState_preserves {nw : Network} {inlets : List Nat} :
    ∀ (l : List ℚ) (st : RunState) (e : Nat) (v : ℚ),
      (st.poreThr e = some v → (l.foldl (stepState nw inlets) st).poreThr e = some v)
        ∧ (st.throatThr e = some v → (l.foldl (stepState nw inlets) st).throatThr e = some v) := by
  intro l
  induction l with
  | nil => exact fun st e v => ⟨fun h => h, fun h => h⟩
  | cons p l ih =>
    intro st e v
    constructor
    · intro h
      exact (ih (stepState nw inlets st p) e v).1 (stepState_preserves_pore h)
    · intro h
      exact (ih (stepState nw inlets st p) e v).2 (stepState_preserves_throat h)

/-- Claim C1: along the ascending sweep of any percolation run, the map from
sweep-step index to per-entity invasion thresholds is monotone: once an
entity's (pore or throat) invasion threshold has been set to a value at some
step, every later step reports exactly the same value — thresholds go from
none (+infinity) to a pressure at most once and never change afterwards. -/
theorem invasion_thresholds_irreversible (nw : Network) (inlets : List Nat)
    (sweep : List ℚ) (i j : Nat) (hij : i ≤ j) (e : Nat) (v : ℚ) :
    ((stateAt nw inlets sweep i).poreThr e = some v →
        (stateAt nw inlets sweep j).poreThr e = some v)
      ∧ ((stateAt nw inlets sweep i).throatThr e = some v →
        (stateAt nw inlets sweep j).throatThr e = some v) := by
  have hdecomp : stateAt nw inlets sweep j =
      (((sweepSchedule sweep).drop i).take (j - i)).foldl (stepState nw inlets)
        (stateAt nw inlets sweep i) := by
    unfold stateAt
    rw [← List.foldl_append, ← List.take_add, Nat.add_sub_cancel' hij]
  rw [hdecomp]
  exact ⟨(foldl_stepState_preserves _ _ e v).1, (foldl_stepState_preserves _ _ e v).2⟩

theorem invasion_thresholds_irreversible_witness :
    (1 ≤ 3)
      ∧ ((stateAt demoNet [0] [1, 3, 5, 7] 3).poreThr 0 = some 1)
      ∧ ((stateAt demoNet [0] [1, 3, 5, 7] 3).throatThr 0 = some 5) :=
  ⟨by decide,
    (invasion_thresholds_irreversible demoNet [0] [1, 3, 5, 7] 1 3 (by decide) 0 1).1
      (by decide),
    (invasion_thresholds_irreversible demoNet [0] [1, 3, 5, 7] 3 3 (by decide) 0 5).2
      (by decide)⟩

/-- Claim C2: after a completed run whose percolation threshold exists, the
stored percolation answer is a monotone step function of the tested sweep
pressures: false for every tested pressure strictly below the threshold and
true for every tested pressure at or above it. -/
theorem is_percolating_step_function {nw : Network} {inlets outlets : List Nat}
    {sweep : List ℚ} {res : RunResult} {t : ℚ}
    (hrun : runEngine nw inlets outlets sweep = .ok res)
    (hthr : res.threshold = some t) :
    ∀ pb ∈ res.percAt, (pb.1 < t → pb.2 = false) ∧ (t ≤ pb.1 → pb.2 = true) := by
  obtain ⟨-, hperc, hth, -, -, -⟩ := runEngine_ok hrun
  rw [hth] at hthr
  rw [hperc]
  intro pb hpb
  rcases List.mem_map.1 hpb with ⟨p, hp, rfl⟩
  constructor
  · intro hlt
    exact find?_sorted_below (sweepSchedule_sorted sweep) hthr p hp hlt
  · intro hle
    exact percolatesAt_mono hle (List.find?_some hthr)

unseal Rat.add Rat.mul Rat.inv Rat.sub in
theorem is_percolating_step_function_witness :
    (runEngine demoNet [0] [1] [1, 3, 5, 7] = .ok demoResult
        ∧ demoResult.threshold = some 5)
      ∧ ∀ pb ∈ demoResult.percAt,
          (pb.1 < 5 → pb.2 = false) ∧ ((5 : ℚ) ≤ pb.1 → pb.2 = true) :=
  ⟨⟨by decide, rfl⟩,
    @is_percolating_step_function demoNet [0] [1] [1, 3, 5, 7] demoResult 5
      (by decide) rfl⟩

/-- Claim C9: for every completed run, the intrusion curve is ordered by
strictly ascending pressure, its saturation values are non-decreasing along the
curve, and every saturation lies in the closed interval from 0 to 1 (pore and
throat volumes being nonnegative). -/
theorem intrusion_curve_monotone {nw : Network} {inlets outlets : List Nat}
    {sweep : List ℚ} {res : RunResult}
    (hvp : ∀ pr ∈ nw.pores, 0 ≤ pr.volume) (hvt : ∀ t ∈ nw.throats, 0 ≤ t.volume)
    (hrun : runEngine nw inlets outlets sweep = .ok res) :
    res.curve.Pairwise (fun a b => a.1 < b.1 ∧ a.2 ≤ b.2)
      ∧ ∀ x ∈ res.curve, 0 ≤ x.2 ∧ x.2 ≤ 1 := by
  obtain ⟨-, -, -, hcurve, -, -⟩ := runEngine_ok hrun
  rw [hcurve]
  constructor
  · rw [List.pairwise_map]
    have hlt : (sweepSchedule sweep).Pairwise (fun a b => a < b) :=
      ((sweepSchedule_sorted sweep).and (sweepSchedule_nodup sweep)).imp
        (fun h => lt_of_le_of_ne h.1 h.2)
    exact hlt.imp (fun h => ⟨h, saturation_mono (le_of_lt h) hvp hvt⟩)
  · intro x hx
    rcases List.mem_map.1 hx with ⟨p, _, rfl⟩
    exact ⟨saturation_nonneg hvp hvt, saturation_le_one hvp hvt⟩

unseal Rat.add Rat.mul Rat.inv Rat.sub in
theorem intrusion_curve_monotone_witness :
    ((∀ pr ∈ demoNet.pores, 0 ≤ pr.volume) ∧ (∀ t ∈ demoNet.throats, 0 ≤ t.volume)
        ∧ runEngine demoNet [0] [1] [1, 3, 5, 7] = .ok demoResult)
      ∧ demoResult.curve.Pairwise (fun a b => a.1 < b.1 ∧ a.2 ≤ b.2)
      ∧ ∀ x ∈ demoResult.curve, 0 ≤ x.2 ∧ x.2 ≤ 1 :=
  ⟨⟨by decide, by decide, by decide⟩,
    @intrusion_curve_monotone demoNet [0] [1] [1, 3, 5, 7] demoResult
      (by decide) (by decide) (by decide)⟩

/-- Claim C10: for a completed run whose inlet pores all have strictly positive
volume (and all volumes nonnegative), the saturation reported at the lowest
sweep pressure is strictly positive: inlet pores are counted into the invaded
volume from the start of the sweep, so the intrusion curve does not begin at
saturation 0 even when no entry pressure lies below the first sweep pressure. -/
theorem initial_saturation_positive {nw : Network} {inlets outlets : List Nat}
    {sweep : List ℚ} {res : RunResult}
    (hvp : ∀ pr ∈ nw.pores, 0 ≤ pr.volume) (hvt : ∀ t ∈ nw.throats, 0 ≤ t.volume)
    (hpos : ∀ i ∈ inlets, 0 < poreVol nw i)
    (hrun : runEngine nw inlets outlets sweep = .ok res) :
    ∀ p s, res.curve.head? = some (p, s) → 0 < s := by
  obtain ⟨-, -, -, hcurve, hin, -⟩ := runEngine_ok hrun
  intro p s hhead
  rw [hcurve, List.head?_map] at hhead
  rcases Option.map_eq_some'.1 hhead with ⟨p0, hp0, hps⟩
  have hps' : (p0, saturation nw inlets p0) = (p, s) := hps
  injection hps' with hps1 hps2
  subst hps1
  subst hps2
  rcases List.exists_mem_of_ne_nil inlets hin with ⟨i0, hi0⟩
  have hivol : 0 < poreVol nw i0 := hpos i0 hi0
  have hsome : ∃ pr, nw.pores[i0]? = some pr ∧ 0 < pr.volume := by
    rcases h : nw.pores[i0]? with _ | pr
    · rw [poreVol, h] at hivol
      simp at hivol
    · refine ⟨pr, rfl, ?_⟩
      rw [poreVol, h] at hivol
      simpa using hivol
  rcases hsome with ⟨pr, hget, hprv⟩
  have hinv : 0 < invadedVolume nw inlets p0 := by
    unfold invadedVolume
    refine add_pos_of_pos_of_nonneg ?_ (sum_filter_nonneg _ _ _ hvt)
    refine sum_filter_pos _ _ _ ?_
      (List.mk_mem_enum_iff_getElem?.2 (by exact hget)) ?_ hprv
    · intro q hq
      exact hvp q.2 (List.getElem?_mem (List.mk_mem_enum_iff_getElem?.1 hq))
    · simp only [decide_eq_true_eq]
      exact inlets_subset_invadedPores i0 hi0
  have hacc : 0 < accessibleVolume nw inlets :=
    lt_of_lt_of_le hinv (invadedVolume_le_accessible hvp hvt)
  exact div_pos hinv hacc

unseal Rat.add Rat.mul Rat.inv Rat.sub in
theorem initial_saturation_positive_witness :
    ((∀ pr ∈ demoNetVol.pores, 0 ≤ pr.volume) ∧ (∀ t ∈ demoNetVol.throats, 0 ≤ t.volume)
        ∧ (∀ i ∈ [0], 0 < poreVol demoNetVol i)
        ∧ runEngine demoNetVol [0] [1] [1, 3, 5, 7] = .ok demoResultVol)
      ∧ 0 < ((1 : ℚ) / 3) :=
  ⟨⟨by decide, by decide, by decide, by decide⟩,
    @initial_saturation_positive demoNetVol [0] [1] [1, 3, 5, 7] demoResultVol
      (by decide) (by decide) (by decide) (by decide) 1 (1 / 3) (by decide)⟩

/-! ## Coordination reducer lemmas -/

theorem foldl_keepStep_split (np : Nat) :
    ∀ (l K : List (Nat × Throat)),
      ∃ s, s.Sublist l ∧ l.foldl (keepStep np) K = K ++ s := by
  intro l
  induction l with
  | nil => exact fun K => ⟨[], List.Sublist.refl _, by simp⟩
  | cons a l ih =>
    intro K
    rcases ih (keepStep np K a) with ⟨s, hs, heq⟩
    by_cases hc : connectedB np (connsOf K) a.2.conns.1 a.2.conns.2 = true
    · refine ⟨s, hs.cons a, ?_⟩
      rw [List.foldl_cons] at *
      rw [heq, keepStep, if_pos hc]
    · refine ⟨a :: s, hs.cons₂ a, ?_⟩
      rw [List.foldl_cons, heq, keepStep, if_neg hc]
      simp

theorem mem_foldl_keepStep (np : Nat) (l K : List (Nat × Throat)) {x : Nat × Throat}
    (hx : x ∈ K) : x ∈ l.foldl (keepStep np) K := by
  rcases foldl_keepStep_split np l K with ⟨s, _, heq⟩
  rw [heq]
  exact List.mem_append_left _ hx

theorem foldl_keepStep_conn (np : Nat) :
    ∀ (l K : List (Nat × Throat)), ∀ it ∈ l,
      Conn (connsOf (l.foldl (keepStep np) K)) it.2.conns.1 it.2.conns.2 := by
  intro l
  induction l with
  | nil => intro K it h; cases h
  | cons a l ih =>
    intro K it hit
    rcases List.mem_cons.1 hit with rfl | hmem
    · rw [List.foldl_cons]
      by_cases hc : connectedB np (connsOf K) it.2.conns.1 it.2.conns.2 = true
      · refine (connectedB_sound hc).mono ?_
        intro e he
        rcases List.mem_map.1 he with ⟨q, hq, rfl⟩
        refine List.mem_map.2 ⟨q, mem_foldl_keepStep np l _ ?_, rfl⟩
        rw [keepStep, if_pos hc]
        exact hq
      · have hin : it ∈ l.foldl (keepStep np) (keepStep np K it) := by
          refine mem_foldl_keepStep np l _ ?_
          rw [keepStep, if_neg hc]
          exact List.mem_append_right _ (List.mem_singleton.2 rfl)
        have hmm : it.2.conns ∈ connsOf (l.foldl (keepStep np) (keepStep np K it)) :=
          List.mem_map.2 ⟨it, hin, rfl⟩
        exact Conn.fwd (Conn.refl _) (by simpa using hmm)
    · rw [List.foldl_cons]
      exact ih (keepStep np K a) it hmem

theorem conn_spanningForest {nw : Network} {a b : Nat}
    (h : Conn nw.conns a b) : Conn (connsOf (spanningForest nw)) a b := by
  induction h with
  | refl => exact Conn.refl _
  | fwd _ hmem ih =>
    rcases List.mem_map.1 hmem with ⟨t, ht, hconns⟩
    rcases List.mem_iff_getElem.1 ht with ⟨i, hi, rfl⟩
    have henum : (i, nw.throats[i]) ∈ nw.throats.enum := by
      have hlen : i < nw.throats.enum.length := by
        rw [List.enum_length]
        exact hi
      have hg := List.getElem_enum nw.throats i hlen
      rw [← hg]
      exact List.getElem_mem hlen
    have hconn := foldl_keepStep_conn nw.np nw.throats.enum [] (i, nw.throats[i]) henum
    rw [hconns] at hconn
    exact ih.trans hconn
  | bwd _ hmem ih =>
    rcases List.mem_map.1 hmem with ⟨t, ht, hconns⟩
    rcases List.mem_iff_getElem.1 ht with ⟨i, hi, rfl⟩
    have henum : (i, nw.throats[i]) ∈ nw.throats.enum := by
      have hlen : i < nw.throats.enum.length := by
        rw [List.enum_length]
        exact hi
      have hg := List.getElem_enum nw.throats i hlen
      rw [← hg]
      exact List.getElem_mem hlen
    have hconn := foldl_keepStep_conn nw.np nw.throats.enum [] (i, nw.throats[i]) henum
    rw [hconns] at hconn
    exact ih.trans hconn.symm

theorem removalIdx_subset_candidates {nw : Network} {z : ℚ}
    {shuffle : List Nat → List Nat} :
    ∀ i ∈ removalIdx nw z shuffle, i ∈ candidateIdx nw := by
  intro i hi
  have h1 := List.mem_of_mem_take hi
  have h2 := List.mem_dedup.1 h1
  exact of_decide_eq_true (List.mem_filter.1 h2).2

theorem protected_not_removed {nw : Network} {z : ℚ} {shuffle : List Nat → List Nat}
    {i : Nat} (hp : i ∈ protectedIdx nw) : i ∉ removalIdx nw z shuffle := by
  intro hr
  have hc := removalIdx_subset_candidates i hr
  exact of_decide_eq_true (List.mem_filter.1 hc).2 hp

theorem spanningForest_sublist_enum (nw : Network) :
    (spanningForest nw).Sublist nw.throats.enum := by
  rcases foldl_keepStep_split nw.np nw.throats.enum [] with ⟨s, hs, heq⟩
  have hforest : spanningForest nw = s := by
    rw [spanningForest, heq]
    simp
  rw [hforest]
  exact hs

theorem forest_in_reduced {nw : Network} {z : ℚ} {shuffle : List Nat → List Nat} :
    ∀ it ∈ spanningForest nw, it.2 ∈ (reduceCoordination nw z shuffle).1.throats := by
  intro it hit
  have hmem : it ∈ nw.throats.enum := (spanningForest_sublist_enum nw).subset hit
  have hprot : it.1 ∈ protectedIdx nw := List.mem_map.2 ⟨it, hit, rfl⟩
  have hnr : it.1 ∉ removalIdx nw z shuffle := protected_not_removed hprot
  show it.2 ∈ (nw.throats.enum.filter
    (fun q => decide (q.1 ∉ removalIdx nw z shuffle))).map (fun q => q.2)
  exact List.mem_map.2 ⟨it, List.mem_filter.2 ⟨hmem, by simpa using hnr⟩, rfl⟩

/-- Claim C4: the target-coordination trim never disconnects the network: every
pair of pores joined by a path before the call is still joined by a path after
it, for every target z and every (seeded) shuffle, because spanning-forest
throats are never removed. -/
theorem reduce_coordination_preserves_connectivity (nw : Network) (z : ℚ)
    (shuffle : List Nat → List Nat) (a b : Nat) (h : Conn nw.conns a b) :
    Conn (reduceCoordination nw z shuffle).1.conns a b := by
  refine (conn_spanningForest h).mono ?_
  intro e he
  rcases List.mem_map.1 he with ⟨it, hit, rfl⟩
  exact List.mem_map.2 ⟨it.2, forest_in_reduced it hit, rfl⟩

theorem reduce_coordination_preserves_connectivity_witness :
    Conn demoNet.conns 0 1 ∧ Conn (reduceCoordination demoNet 0 id).1.conns 0 1 :=
  have h : Conn demoNet.conns 0 1 := Conn.fwd (Conn.refl 0) (by decide)
  ⟨h, reduce_coordination_preserves_connectivity demoNet 0 id 0 1 h⟩

/-- Claim C5: whenever the requested z is below the minimum mean degree
achievable while keeping the spanning forest (2·forest size/pore count), the
reducer removes no protected throat, keeps the full spanning forest, and the
mean degree it reports is strictly greater than the requested z — it never
under-delivers silently. -/
theorem reduce_coordination_never_underdelivers (nw : Network) (z : ℚ)
    (shuffle : List Nat → List Nat)
    (hz : z < 2 * ((spanningForest nw).length : ℚ) / (nw.np : ℚ)) :
    (∀ it ∈ spanningForest nw, it.2 ∈ (reduceCoordination nw z shuffle).1.throats)
      ∧ z < (reduceCoordination nw z shuffle).2 := by
  refine ⟨fun it hit => forest_in_reduced it hit, ?_⟩
  have hall : ∀ q ∈ spanningForest nw,
      (decide (q.1 ∉ removalIdx nw z shuffle)) = true := by
    intro q hq
    simpa using protected_not_removed (List.mem_map.2 ⟨q, hq, rfl⟩)
  have hsubl : (spanningForest nw).Sublist
      (nw.throats.enum.filter (fun q => decide (q.1 ∉ removalIdx nw z shuffle))) := by
    have h1 : (spanningForest nw).filter
        (fun q => decide (q.1 ∉ removalIdx nw z shuffle)) = spanningForest nw :=
      List.filter_eq_self.2 hall
    rw [← h1]
    exact (spanningForest_sublist_enum nw).filter _
  have hlen : (spanningForest nw).length
      ≤ (reduceCoordination nw z shuffle).1.throats.length := by
    have hle := hsubl.length_le
    show (spanningForest nw).length ≤ ((nw.throats.enum.filter
      (fun q => decide (q.1 ∉ removalIdx nw z shuffle))).map (fun q => q.2)).length
    rw [List.length_map]
    exact hle
  have hach : (reduceCoordination nw z shuffle).2
      = 2 * (((reduceCoordination nw z shuffle).1.throats.length : ℚ)) / (nw.np : ℚ) := rfl
  rw [hach]
  refine lt_of_lt_of_le hz (div_le_div_of_nonneg_right ?_ (by positivity))
  have h2 : ((spanningForest nw).length : ℚ)
      ≤ (((reduceCoordination nw z shuffle).1.throats.length : ℚ)) := by
    exact_mod_cast hlen
  linarith

unseal Rat.add Rat.mul Rat.inv Rat.sub in
theorem reduce_coordination_never_underdelivers_witness :
    ((0 : ℚ) < 2 * ((spanningForest demoNet).length : ℚ) / (demoNet.np : ℚ))
      ∧ (∀ it ∈ spanningForest demoNet,
          it.2 ∈ (reduceCoordination demoNet 0 id).1.throats)
      ∧ (0 : ℚ) < (reduceCoordination demoNet 0 id).2 :=
  have h := reduce_coordination_never_underdelivers demoNet 0 id (by decide)
  ⟨by decide, h.1, h.2⟩

/-! ## Builder lemmas -/

theorem cellId_cellOf (shape : Nat × Nat × Nat) (q : Nat) :
    cellId shape (cellOf shape q) = q := by
  unfold cellId cellOf
  simp only
  have hmm : q % shape.2.2 = q % (shape.2.1 * shape.2.2) % shape.2.2 :=
    (Nat.mod_mod_of_dvd q (dvd_mul_left shape.2.2 shape.2.1)).symm
  rw [hmm, Nat.add_assoc, Nat.div_add_mod' (q % (shape.2.1 * shape.2.2)) shape.2.2,
    Nat.div_add_mod']

theorem cellId_lt (shape : Nat × Nat × Nat) (c : Nat × Nat × Nat)
    (h1 : c.1 < shape.1) (h2 : c.2.1 < shape.2.1) (h3 : c.2.2 < shape.2.2) :
    cellId shape c < shape.1 * (shape.2.1 * shape.2.2) := by
  unfold cellId
  have ha : c.2.1 * shape.2.2 + c.2.2 < shape.2.1 * shape.2.2 := by
    calc c.2.1 * shape.2.2 + c.2.2 < c.2.1 * shape.2.2 + shape.2.2 := by omega
      _ = (c.2.1 + 1) * shape.2.2 := by ring
      _ ≤ shape.2.1 * shape.2.2 := Nat.mul_le_mul_right _ h2
  calc c.1 * (shape.2.1 * shape.2.2) + c.2.1 * shape.2.2 + c.2.2
      < c.1 * (shape.2.1 * shape.2.2) + shape.2.1 * shape.2.2 := by omega
    _ = (c.1 + 1) * (shape.2.1 * shape.2.2) := by ring
    _ ≤ shape.1 * (shape.2.1 * shape.2.2) := Nat.mul_le_mul_right _ h1

theorem cellsOf_length (shape : Nat × Nat × Nat) :
    (cellsOf shape).length = shape.1 * (shape.2.1 * shape.2.2) := by
  rw [cellsOf, List.length_map, List.length_range]

theorem cellId_lt_of_mem {shape c : Nat × Nat × Nat} (hc : c ∈ cellsOf shape) :
    cellId shape c < shape.1 * (shape.2.1 * shape.2.2) := by
  rcases List.mem_map.1 hc with ⟨q, hq, rfl⟩
  rw [cellId_cellOf]
  exact List.mem_range.1 hq

theorem cellId_toCell_lt {shape : Nat × Nat × Nat} {n : Int × Int × Int}
    (h : inBounds shape n = true) :
    cellId shape (toCell n) < shape.1 * (shape.2.1 * shape.2.2) := by
  unfold inBounds at h
  simp only [Bool.and_eq_true, decide_eq_true_eq] at h
  obtain ⟨⟨⟨⟨⟨h1, h2⟩, h3⟩, h4⟩, h5⟩, h6⟩ := h
  exact cellId_lt shape (toCell n) ((Int.toNat_lt h1).2 h2)
    ((Int.toNat_lt h3).2 h4) ((Int.toNat_lt h5).2 h6)

theorem templateId_allTrue (shape : Nat × Nat × Nat) (c : Nat × Nat × Nat)
    (h : cellId shape c ≤ shape.1 * (shape.2.1 * shape.2.2)) :
    templateId shape (fun _ => true) c = cellId shape c := by
  unfold templateId
  rw [List.countP_true, List.length_take, cellsOf_length]
  exact Nat.min_eq_left h

theorem filterMap_congr_mem {α β : Type} {f g : α → Option β} :
    ∀ {l : List α}, (∀ a ∈ l, f a = g a) → l.filterMap f = l.filterMap g := by
  intro l
  induction l with
  | nil => intro _; rfl
  | cons a l ih =>
    intro h
    rw [List.filterMap_cons, List.filterMap_cons, h a (List.mem_cons_self a l),
      ih (fun x hx => h x (List.mem_cons_of_mem a hx))]

theorem flatMap_congr_mem {α β : Type} {f g : α → List β} :
    ∀ {l : List α}, (∀ a ∈ l, f a = g a) → l.flatMap f = l.flatMap g := by
  intro l
  induction l with
  | nil => intro _; rfl
  | cons a l ih =>
    intro h
    rw [List.flatMap_cons, List.flatMap_cons, h a (List.mem_cons_self a l),
      ih (fun x hx => h x (List.mem_cons_of_mem a hx))]

theorem templatePair_allTrue {shape : Nat × Nat × Nat} {c : Nat × Nat × Nat}
    (hc : c ∈ cellsOf shape) (d : Int × Int × Int) :
    templatePair shape (fun _ => true) c d = latticePair shape c d := by
  unfold templatePair latticePair
  by_cases hb : inBounds shape (shiftCell c d) = true
  · rw [if_pos (by simp [hb]), if_pos hb]
    rw [templateId_allTrue shape c (le_of_lt (cellId_lt_of_mem hc)),
      templateId_allTrue shape _ (le_of_lt (cellId_toCell_lt hb))]
  · rw [if_neg (by simp [hb]), if_neg hb]

/-- Claim C7: applied to an all-true occupancy mask of any shape (with positive
dimensions), the Template Builder yields exactly the Lattice Builder output for
the same shape, spacing and connectivity: same pore count, same pore
coordinates and the same throat list (the identity relabeling), for valid and
invalid connectivity classes alike. -/
theorem template_allTrue_eq_lattice (shape : Nat × Nat × Nat) (spacing : ℚ × ℚ × ℚ)
    (connectivity : Nat)
    (hdims : 1 ≤ shape.1 ∧ 1 ≤ shape.2.1 ∧ 1 ≤ shape.2.2) :
    buildFromTemplate shape (fun _ => true) spacing connectivity
      = buildLattice shape spacing connectivity := by
  unfold buildFromTemplate buildLattice
  cases hoffs : offsetsFor connectivity with
  | none => rfl
  | some offs =>
    dsimp only
    rw [if_neg (by omega), if_neg (by omega)]
    simp only [Except.ok.injEq, BuiltNetwork.mk.injEq]
    refine ⟨?_, ?_, ?_⟩
    · rw [List.filter_true, cellsOf_length]
    · rw [List.filter_true]
    · refine flatMap_congr_mem ?_
      intro c hc
      rw [if_pos trivial]
      exact filterMap_congr_mem (fun d _ => templatePair_allTrue hc d)

theorem template_allTrue_eq_lattice_witness :
    (1 ≤ 2 ∧ 1 ≤ 2 ∧ 1 ≤ 1)
      ∧ buildFromTemplate (2, 2, 1) (fun _ => true) (1, 1, 1) 6
          = buildLattice (2, 2, 1) (1, 1, 1) 6 :=
  ⟨⟨by decide, by decide, by decide⟩,
    template_allTrue_eq_lattice (2, 2, 1) (1, 1, 1) 6 (by decide)⟩

set_option maxRecDepth 1000000 in
theorem chunkSum0 : ((List.range' 0 125).map cellThroatCount).sum = 1401 := by decide

set_option maxRecDepth 1000000 in
theorem chunkSum1 : ((List.range' 125 125).map cellThroatCount).sum = 1428 := by decide

set_option maxRecDepth 1000000 in
theorem chunkSum2 : ((List.range' 250 125).map cellThroatCount).sum = 1429 := by decide

set_option maxRecDepth 1000000 in
theorem chunkSum3 : ((List.range' 375 125).map cellThroatCount).sum = 1372 := by decide

set_option maxRecDepth 1000000 in
theorem chunkSum4 : ((List.range' 500 125).map cellThroatCount).sum = 1401 := by decide

set_option maxRecDepth 1000000 in
theorem chunkSum5 : ((List.range' 625 125).map cellThroatCount).sum = 1428 := by decide

set_option maxRecDepth 1000000 in
theorem chunkSum6 : ((List.range' 750 125).map cellThroatCount).sum = 1429 := by decide

set_option maxRecDepth 1000000 in
theorem chunkSum7 : ((List.range' 875 125).map cellThroatCount).sum = 588 := by decide

theorem range'_split (s m n : Nat) :
    List.range' s (m + n) = List.range' s m ++ List.range' (s + m) n := by
  rw [Nat.add_comm m n]
  exact (List.range'_append_1 s m n).symm

theorem chunkSum01 : ((List.range' 0 250).map cellThroatCount).sum = 2829 := by
  have h : List.range' 0 250 = List.range' 0 125 ++ List.range' 125 125 := range'_split 0 125 125
  rw [h, List.map_append, List.sum_append, chunkSum0, chunkSum1]

theorem chunkSum23 : ((List.range' 250 250).map cellThroatCount).sum = 2801 := by
  have h : List.range' 250 250 = List.range' 250 125 ++ List.range' 375 125 := range'_split 250 125 125
  rw [h, List.map_append, List.sum_append, chunkSum2, chunkSum3]

theorem chunkSum45 : ((List.range' 500 250).map cellThroatCount).sum = 2829 := by
  have h : List.range' 500 250 = List.range' 500 125 ++ List.range' 625 125 := range'_split 500 125 125
  rw [h, List.map_append, List.sum_append, chunkSum4, chunkSum5]

theorem chunkSum67 : ((List.range' 750 250).map cellThroatCount).sum = 2017 := by
  have h : List.range' 750 250 = List.range' 750 125 ++ List.range' 875 125 := range'_split 750 125 125
  rw [h, List.map_append, List.sum_append, chunkSum6, chunkSum7]

theorem gridSum : ((List.range 1000).map cellThroatCount).sum = 10476 := by
  rw [List.range_eq_range']
  have h1 : List.range' 0 1000 = List.range' 0 500 ++ List.range' 500 500 := range'_split 0 500 500
  have h2 : List.range' 0 500 = List.range' 0 250 ++ List.range' 250 250 := range'_split 0 250 250
  have h3 : List.range' 500 500 = List.range' 500 250 ++ List.range' 750 250 := range'_split 500 250 250
  rw [h1, h2, h3, List.map_append, List.map_append, List.map_append, List.sum_append,
    List.sum_append, List.sum_append, chunkSum01, chunkSum23, chunkSum45, chunkSum67]
  norm_num

theorem lattice_conns_count :
    ((cellsOf (10, 10, 10)).flatMap (fun c =>
      (faceOffsets ++ cornerOffsets ++ edgeOffsets).filterMap
        (latticePair (10, 10, 10) c))).length = 10476 := by
  rw [List.length_flatMap, cellsOf, List.map_map]
  have hn : (10 * (10 * 10) : Nat) = 1000 := by norm_num
  rw [hn]
  exact Eq.trans (congrArg List.sum (List.map_congr_left (fun q _ => rfl))) gridSum

/-- Claim C6: the Lattice Builder applied to shape (10, 10, 10) with any
spacing and connectivity class 26 produces exactly 1000 pores and exactly
10476 throats. -/
theorem lattice_10_cube_throat_count (s : ℚ × ℚ × ℚ) :
    (buildLattice (10, 10, 10) s 26).map (fun n => (n.np, n.conns.length))
      = .ok (1000, 10476) := by
  have h1 : buildLattice (10, 10, 10) s 26 = .ok
      { np := 1000
      , coords := (cellsOf (10, 10, 10)).map (coordOf s)
      , conns := (cellsOf (10, 10, 10)).flatMap
          (fun c => (faceOffsets ++ cornerOffsets ++ edgeOffsets).filterMap
            (latticePair (10, 10, 10) c)) } := rfl
  rw [h1]
  simp only [Except.map]
  simp only [Except.ok.injEq, Prod.mk.injEq]
  exact ⟨trivial, lattice_conns_count⟩

end PNM
